import Mathlib

/-!
Shallow embedding of the numerical inpainting core of `src/src/App.tsx`
(repository `metodo-numerico`): the `Tensor` raster model, the damage
simulator `makeDamagedView`, the Gauss-Seidel/SOR solver
`inpaintGaussSeidel`, the quality metric `rmseOnMissing`, and the manual
mask construction performed inside `handleApplyDamage`.

Floating-point samples are modelled as exact rationals; `Math.sqrt` is
modelled as `Real.sqrt` on the rational mean square.  `Float32Array`
reads are `List.getD · 0` (all reads performed by the code are
in range for well-formed inputs), out-of-range `List.set` writes are
no-ops exactly as on a typed array, and the JavaScript strict
comparisons `known[i] === 1` / `known[i] === 0` on a possibly
out-of-range index are `known.get? i = some 1` / `= some 0`.
-/

namespace Inpaint

/-- Model of `Tensor` from App.tsx: height, width, channel count and the
flat row-major, channel-minor sample buffer. -/
structure Tensor where
  H : ℕ
  W : ℕ
  C : ℕ
  data : List ℚ
deriving DecidableEq

/-- Model of `InpaintResult` from App.tsx. -/
structure InpaintResult where
  reconstructed : Tensor
  residuals : List ℚ
  rmse : ℝ
  iterations : ℕ

/-- The SOR relaxation factor `omega = 1.25` fixed in `inpaintGaussSeidel`. -/
def omega : ℚ := 5 / 4

/-- Model of `makeDamagedView` (App.tsx lines 52-70): copy the source and zero the
three channel samples `i*3+c` of every pixel `i` with `known[i] === 0`.
The imperative per-pixel writes are rendered pointwise: position `j` of
the buffer is overwritten exactly when it is one of the targets
`i*3+c` (`i < H*W`, `c < 3`), i.e. when `j / 3 < H*W`, and its pixel is
unknown. -/
def makeDamagedView (original : Tensor) (known : List ℕ) : Tensor :=
  { H := original.H, W := original.W, C := original.C,
    data := (List.range original.data.length).map fun j =>
      if j / 3 < original.H * original.W ∧ known.get? (j / 3) = some 0 then 0
      else original.data.getD j 0 }

/-- The four axis-aligned neighbor coordinates of `(y, x)` with
out-of-range coordinates clamped to the boundary, exactly as built in
App.tsx lines 110-115 (`Math.max(0, y-1)` is truncated subtraction on ℕ). -/
def neighbors (H W y x : ℕ) : List (ℕ × ℕ) :=
  [(y - 1, x), (min (H - 1) (y + 1), x), (y, x - 1), (y, min (W - 1) (x + 1))]

/-- One channel update of an unknown pixel (App.tsx lines 117-132):
read the four neighbor samples of channel `c` from the current buffer,
form their mean, over-relax, store in place, and accumulate the absolute
change and the change count. -/
def chanStep (C idx : ℕ) (nbrs : List ℕ) (s : List ℚ × ℚ × ℕ) (c : ℕ) :
    List ℚ × ℚ × ℕ :=
  let sumN := (nbrs.map fun n => s.1.getD (n * C + c) 0).sum
  let oldVal := s.1.getD (idx * C + c) 0
  let newVal := sumN / 4
  let nextVal := oldVal + omega * (newVal - oldVal)
  (s.1.set (idx * C + c) nextVal, s.2.1 + |nextVal - oldVal|, s.2.2 + 1)

/-- One channel of the known-pixel branch (App.tsx lines 104-107):
reimpose the damaged sample into the working buffer. -/
def clampStep (C : ℕ) (dd : List ℚ) (idx : ℕ) (u : List ℚ) (c : ℕ) : List ℚ :=
  u.set (idx * C + c) (dd.getD (idx * C + c) 0)

/-- Processing of one pixel inside a sweep (App.tsx lines 100-134):
known pixels get the damaged values reimposed, unknown pixels get the
over-relaxed neighbor-mean update on every channel. -/
def sweepPixel (H W C : ℕ) (dd : List ℚ) (known : List ℕ)
    (st : List ℚ × ℚ × ℕ) (idx : ℕ) : List ℚ × ℚ × ℕ :=
  if known.get? idx = some 1 then
    ((List.range C).foldl (clampStep C dd idx) st.1, st.2.1, st.2.2)
  else
    let y := idx / W
    let x := idx % W
    let nbrs := (neighbors H W y x).map fun p => p.1 * W + p.2
    (List.range C).foldl (chanStep C idx nbrs) st

/-- One full row-major sweep (App.tsx lines 96-135): fold `sweepPixel`
over all pixel indices `y*W+x` in order, starting from the working
buffer and zeroed change accumulators. -/
def sweep (H W C : ℕ) (dd : List ℚ) (known : List ℕ) (U : List ℚ) :
    List ℚ × ℚ × ℕ :=
  (List.range (H * W)).foldl (sweepPixel H W C dd known) (U, 0, 0)

/-- The iteration loop of `inpaintGaussSeidel` (App.tsx lines 95-143),
by recursion on the remaining allowed iterations.  Returns the final
working buffer, the residual sequence in order, and the final value of
the JavaScript loop variable `iter` (left at the 0-based index of the
breaking sweep on early exit, and at `maxIter` on exhaustion). -/
def inpaintLoop (H W C : ℕ) (dd : List ℚ) (known : List ℕ) (tol : ℚ) :
    ℕ → ℕ → List ℚ → List ℚ × List ℚ × ℕ
  | 0, iter, U => (U, [], iter)
  | fuel + 1, iter, U =>
    let s := sweep H W C dd known U
    let avg := if 0 < s.2.2 then s.2.1 / (s.2.2 : ℚ) else 0
    if avg < tol then (s.1, [avg], iter)
    else
      let r := inpaintLoop H W C dd known tol fuel (iter + 1) s.1
      (r.1, avg :: r.2.1, r.2.2)

/-- The per-channel squared-difference accumulation of `rmseOnMissing`
(App.tsx lines 158-161). -/
def rmseChan (original reconstructed : Tensor) (i : ℕ) (s : ℚ) (c : ℕ) : ℚ :=
  s + (original.data.getD (i * original.C + c) 0 -
        reconstructed.data.getD (i * original.C + c) 0) *
      (original.data.getD (i * original.C + c) 0 -
        reconstructed.data.getD (i * original.C + c) 0)

/-- The per-pixel step of `rmseOnMissing` (App.tsx lines 156-164):
pixels with `known[i] === 0` contribute their channel squared
differences and raise the term count by `C`. -/
def rmseStep (original reconstructed : Tensor) (known : List ℕ)
    (acc : ℚ × ℕ) (i : ℕ) : ℚ × ℕ :=
  if known.get? i = some 0 then
    ((List.range original.C).foldl (rmseChan original reconstructed i) acc.1,
      acc.2 + original.C)
  else acc

/-- The accumulation loop of `rmseOnMissing`: total squared error and
term count over all pixels. -/
def rmseCore (original reconstructed : Tensor) (known : List ℕ) : ℚ × ℕ :=
  (List.range (original.H * original.W)).foldl
    (rmseStep original reconstructed known) (0, 0)

/-- Model of `rmseOnMissing` (App.tsx lines 151-167): square root of the mean
squared per-channel difference over unknown pixels, `0` when the term
count is zero. -/
noncomputable def rmseOnMissing (original reconstructed : Tensor)
    (known : List ℕ) : ℝ :=
  if 0 < (rmseCore original reconstructed known).2 then
    Real.sqrt (((rmseCore original reconstructed known).1 : ℝ) /
      ((rmseCore original reconstructed known).2 : ℝ))
  else 0

/-- Model of `inpaintGaussSeidel` (App.tsx lines 80-149).  `lambda` and `beta`
are accepted and never read, exactly as in the source.  `maxIter` is an
arbitrary integer; the `for` loop runs `max maxIter 0` times absent an
early break, and the reported iteration count is the final loop variable
plus one. -/
noncomputable def inpaintGaussSeidel (damaged : Tensor) (known : List ℕ)
    (lambda beta : ℚ) (maxIter : ℤ) (tol : ℚ) : InpaintResult :=
  let r := inpaintLoop damaged.H damaged.W damaged.C damaged.data known tol
    maxIter.toNat 0 damaged.data
  let reconstructed : Tensor := ⟨damaged.H, damaged.W, damaged.C, r.1⟩
  { reconstructed := reconstructed
    residuals := r.2.1
    rmse := rmseOnMissing damaged reconstructed known
    iterations := r.2.2 + 1 }

/-- Failure of manual mask construction with no painted pixel
(`EmptyMaskError` of the specification; the `alert`-and-return path of
`handleApplyDamage`, App.tsx lines 431-437). -/
inductive MaskError where
  | emptyMask
deriving DecidableEq

/-- Manual known-mask construction from the paint mask
(`handleApplyDamage`, App.tsx lines 430-445): fail when no pixel is
painted, otherwise inverts the paint mask
(`known[i] = manualMask[i] === 1 ? 0 : 1`). -/
def buildKnownMaskFromPaint (paint : List ℕ) : Except MaskError (List ℕ) :=
  if paint.sum = 0 then Except.error MaskError.emptyMask
  else Except.ok (paint.map fun v => if v = 1 then 0 else 1)

/-- The manual-mask pipeline of `handleApplyDamage` (App.tsx lines
425-457): on mask-construction failure no known-mask and no damaged
view are produced; otherwise the damaged view is derived. -/
def applyDamageManual (source : Tensor) (paint : List ℕ) :
    Option (List ℕ × Tensor) :=
  match buildKnownMaskFromPaint paint with
  | Except.error _ => none
  | Except.ok known => some (known, makeDamagedView source known)

/-! List helper lemmas about `set`, `getD` and folds. -/

lemma getD_set_ne (v : ℚ) : ∀ (l : List ℚ) (i j : ℕ), i ≠ j →
    (l.set i v).getD j 0 = l.getD j 0 := by
  intro l
  induction l with
  | nil => intro i j _; rfl
  | cons a t ih =>
    intro i j h
    cases i with
    | zero =>
      cases j with
      | zero => exact absurd rfl h
      | succ j' => rfl
    | succ i' =>
      cases j with
      | zero => rfl
      | succ j' =>
        simpa [List.getD_cons_succ] using ih i' j' (fun hh => h (by rw [hh]))

lemma getD_set_self (v : ℚ) : ∀ (l : List ℚ) (i : ℕ), i < l.length →
    (l.set i v).getD i 0 = v := by
  intro l
  induction l with
  | nil => intro i h; simp at h
  | cons a t ih =>
    intro i h
    cases i with
    | zero => rfl
    | succ i' =>
      simpa [List.getD_cons_succ] using ih i' (by simpa using h)

lemma set_getD_id : ∀ (l : List ℚ) (i : ℕ), l.set i (l.getD i 0) = l := by
  intro l
  induction l with
  | nil => intro i; rfl
  | cons a t ih =>
    intro i
    cases i with
    | zero => rfl
    | succ i' => simpa [List.getD_cons_succ] using ih i'

lemma getD_map_lt (f : ℕ → ℕ) : ∀ (l : List ℕ) (i : ℕ), i < l.length →
    (l.map f).getD i 0 = f (l.getD i 0) := by
  intro l
  induction l with
  | nil => intro i h; simp at h
  | cons a t ih =>
    intro i h
    cases i with
    | zero => rfl
    | succ i' => simpa [List.getD_cons_succ] using ih i' (by simpa using h)

lemma foldl_add_sum (f : ℕ → ℚ) : ∀ (n : ℕ) (a : ℚ),
    (List.range n).foldl (fun s c => s + f c) a = a + ∑ c ∈ Finset.range n, f c := by
  intro n
  induction n with
  | zero => intro a; simp
  | succ m ih =>
    intro a
    rw [List.range_succ, List.foldl_append, ih, Finset.sum_range_succ]
    simp [add_assoc]

lemma range_split (n m : ℕ) (h : n ≤ m) :
    List.range m = List.range n ++ (List.range (m - n)).map (n + ·) := by
  have h1 : m = n + (m - n) := by omega
  rw [h1, List.range_add]
  simp

/-- Uniqueness of the pixel/channel decomposition of a flat index. -/
lemma flat_index_inj {C m c idx c' : ℕ} (hc : c < C) (hc' : c' < C)
    (h : m * C + c = idx * C + c') : m = idx ∧ c = c' := by
  have hm : (m * C + c) % C = c := by
    rw [mul_comm m C, Nat.mul_add_mod, Nat.mod_eq_of_lt hc]
  have hi : (idx * C + c') % C = c' := by
    rw [mul_comm idx C, Nat.mul_add_mod, Nat.mod_eq_of_lt hc']
  have hcc : c = c' := by rw [← hm, ← hi, h]
  have hC : 0 < C := Nat.lt_of_le_of_lt (Nat.zero_le c) hc
  have hmul : m * C = idx * C := by omega
  exact ⟨Nat.eq_of_mul_eq_mul_right hC hmul, hcc⟩

/-! Behaviour of the channel folds of a single pixel. -/

lemma chanFold_length (C idx : ℕ) (nbrs : List ℕ) :
    ∀ (cs : List ℕ) (st : List ℚ × ℚ × ℕ),
      ((cs.foldl (chanStep C idx nbrs) st).1).length = st.1.length := by
  intro cs
  induction cs with
  | nil => intro st; rfl
  | cons a t ih =>
    intro st
    rw [List.foldl_cons, ih]
    simp [chanStep]

lemma chanFold_getD_ne (C idx : ℕ) (nbrs : List ℕ) :
    ∀ (cs : List ℕ) (st : List ℚ × ℚ × ℕ) (j : ℕ),
      (∀ c ∈ cs, j ≠ idx * C + c) →
      ((cs.foldl (chanStep C idx nbrs) st).1).getD j 0 = st.1.getD j 0 := by
  intro cs
  induction cs with
  | nil => intro st j _; rfl
  | cons a t ih =>
    intro st j h
    rw [List.foldl_cons, ih _ _ (fun c hc => h c (List.mem_cons_of_mem a hc))]
    simp only [chanStep]
    exact getD_set_ne _ _ _ _ (fun he => (h a (List.mem_cons_self a t)) he.symm)

lemma clampFold_length (C : ℕ) (dd : List ℚ) (idx : ℕ) :
    ∀ (cs : List ℕ) (u : List ℚ),
      (cs.foldl (clampStep C dd idx) u).length = u.length := by
  intro cs
  induction cs with
  | nil => intro u; rfl
  | cons a t ih =>
    intro u
    rw [List.foldl_cons, ih]
    simp [clampStep]

lemma clampFold_getD_ne (C : ℕ) (dd : List ℚ) (idx : ℕ) :
    ∀ (cs : List ℕ) (u : List ℚ) (j : ℕ),
      (∀ c ∈ cs, j ≠ idx * C + c) →
      (cs.foldl (clampStep C dd idx) u).getD j 0 = u.getD j 0 := by
  intro cs
  induction cs with
  | nil => intro u j _; rfl
  | cons a t ih =>
    intro u j h
    rw [List.foldl_cons, ih _ _ (fun c hc => h c (List.mem_cons_of_mem a hc))]
    simp only [clampStep]
    exact getD_set_ne _ _ _ _ (fun he => (h a (List.mem_cons_self a t)) he.symm)

lemma clampFold_getD_mem (C : ℕ) (dd : List ℚ) (idx : ℕ) :
    ∀ (cs : List ℕ) (u : List ℚ) (c : ℕ), c ∈ cs → idx * C + c < u.length →
      (cs.foldl (clampStep C dd idx) u).getD (idx * C + c) 0 =
        dd.getD (idx * C + c) 0 := by
  intro cs
  induction cs with
  | nil => intro u c h; simp at h
  | cons a t ih =>
    intro u c hmem hlen
    rw [List.foldl_cons]
    by_cases hct : c ∈ t
    · refine ih _ c hct ?_
      simpa [clampStep] using hlen
    · have hca : c = a := by
        rcases List.mem_cons.mp hmem with h1 | h1
        · exact h1
        · exact absurd h1 hct
      subst hca
      rw [clampFold_getD_ne C dd idx t _ _ ?hpres]
      case hpres =>
        intro c' hc' he
        have : c = c' := Nat.add_left_cancel he
        exact hct (this ▸ hc')
      simp only [clampStep]
      exact getD_set_self _ _ _ hlen

lemma clampFold_id (C : ℕ) (dd : List ℚ) (idx : ℕ) :
    ∀ (cs : List ℕ), cs.foldl (clampStep C dd idx) dd = dd := by
  intro cs
  induction cs with
  | nil => rfl
  | cons a t ih =>
    rw [List.foldl_cons]
    simp only [clampStep]
    rw [set_getD_id]
    exact ih

/-- Gauss-Seidel channel update characterization: after the channel fold of
an unknown pixel, channel `c` holds the over-relaxed neighbor mean computed
from the buffer as it was when the pixel's processing started. -/
lemma chanFold_value (C idx : ℕ) (nbrs : List ℕ) (st : List ℚ × ℚ × ℕ) (c : ℕ)
    (hc : c < C) (hl : idx * C + c < st.1.length) :
    (((List.range C).foldl (chanStep C idx nbrs) st).1).getD (idx * C + c) 0 =
      st.1.getD (idx * C + c) 0 +
        omega * ((((nbrs.map fun n => st.1.getD (n * C + c) 0).sum) / 4) -
          st.1.getD (idx * C + c) 0) := by
  have hsplit : List.range C =
      List.range (c + 1) ++ (List.range (C - (c + 1))).map ((c + 1) + ·) :=
    range_split (c + 1) C hc
  rw [hsplit, List.foldl_append]
  rw [chanFold_getD_ne C idx nbrs _ _ _ ?hne]
  case hne =>
    intro c' hc' he
    obtain ⟨i, hi, rfl⟩ := List.mem_map.mp hc'
    have : c = (c + 1) + i := Nat.add_left_cancel he
    omega
  rw [List.range_succ, List.foldl_append, List.foldl_cons, List.foldl_nil]
  set B := (List.range c).foldl (chanStep C idx nbrs) st with hB
  have hlenB : B.1.length = st.1.length := chanFold_length C idx nbrs _ _
  have hagree : ∀ m : ℕ, B.1.getD (m * C + c) 0 = st.1.getD (m * C + c) 0 := by
    intro m
    apply chanFold_getD_ne
    intro c' hc' he
    have hc'c : c' < c := List.mem_range.mp hc'
    have h2 := (flat_index_inj hc (lt_trans hc'c hc) he).2
    omega
  have hsum : (nbrs.map fun n => B.1.getD (n * C + c) 0) =
      (nbrs.map fun n => st.1.getD (n * C + c) 0) :=
    List.map_congr_left fun n _ => hagree n
  simp only [chanStep]
  rw [getD_set_self _ _ _ (by rw [hlenB]; exact hl)]
  rw [hagree idx, hsum]

/-! Behaviour of `sweepPixel`. -/

lemma sweepPixel_length (H W C : ℕ) (dd : List ℚ) (known : List ℕ)
    (st : List ℚ × ℚ × ℕ) (idx : ℕ) :
    ((sweepPixel H W C dd known st idx).1).length = st.1.length := by
  simp only [sweepPixel]
  split
  · exact clampFold_length C dd idx (List.range C) st.1
  · exact chanFold_length C idx _ (List.range C) st

lemma sweepPixel_getD_ne (H W C : ℕ) (dd : List ℚ) (known : List ℕ)
    (st : List ℚ × ℚ × ℕ) (idx j : ℕ) (h : ∀ c < C, j ≠ idx * C + c) :
    ((sweepPixel H W C dd known st idx).1).getD j 0 = st.1.getD j 0 := by
  simp only [sweepPixel]
  split
  · exact clampFold_getD_ne C dd idx (List.range C) st.1 j
      (fun c hc => h c (List.mem_range.mp hc))
  · exact chanFold_getD_ne C idx _ (List.range C) st j
      (fun c hc => h c (List.mem_range.mp hc))

lemma sweepPixel_known (H W C : ℕ) (dd : List ℚ) (known : List ℕ)
    (st : List ℚ × ℚ × ℕ) (idx c : ℕ) (hc : c < C)
    (hk : known.get? idx = some 1) (hl : idx * C + c < st.1.length) :
    ((sweepPixel H W C dd known st idx).1).getD (idx * C + c) 0 =
      dd.getD (idx * C + c) 0 := by
  simp only [sweepPixel, hk, if_pos]
  exact clampFold_getD_mem C dd idx (List.range C) st.1 c (List.mem_range.mpr hc) hl

/-- Unknown-pixel update characterization at the pixel level. -/
lemma sweepPixel_unknown (H W C : ℕ) (dd : List ℚ) (known : List ℕ)
    (st : List ℚ × ℚ × ℕ) (idx c : ℕ) (hc : c < C)
    (hk : ¬ known.get? idx = some 1) (hl : idx * C + c < st.1.length) :
    ((sweepPixel H W C dd known st idx).1).getD (idx * C + c) 0 =
      st.1.getD (idx * C + c) 0 +
        omega * (((((neighbors H W (idx / W) (idx % W)).map
            (fun p => st.1.getD ((p.1 * W + p.2) * C + c) 0)).sum) / 4) -
          st.1.getD (idx * C + c) 0) := by
  simp only [sweepPixel, hk, if_neg, if_false]
  rw [chanFold_value C idx _ st c hc hl]
  rw [List.map_map]
  rfl

/-! Behaviour of a whole sweep and of the iteration loop. -/

lemma sweepFold_length (H W C : ℕ) (dd : List ℚ) (known : List ℕ) :
    ∀ (ps : List ℕ) (st : List ℚ × ℚ × ℕ),
      ((ps.foldl (sweepPixel H W C dd known) st).1).length = st.1.length := by
  intro ps
  induction ps with
  | nil => intro st; rfl
  | cons a t ih =>
    intro st
    rw [List.foldl_cons, ih, sweepPixel_length]

lemma sweep_length (H W C : ℕ) (dd : List ℚ) (known : List ℕ) (U : List ℚ) :
    ((sweep H W C dd known U).1).length = U.length :=
  sweepFold_length H W C dd known (List.range (H * W)) (U, 0, 0)

lemma sweepFold_getD_ne (H W C : ℕ) (dd : List ℚ) (known : List ℕ) :
    ∀ (ps : List ℕ) (st : List ℚ × ℚ × ℕ) (j : ℕ),
      (∀ p ∈ ps, ∀ c < C, j ≠ p * C + c) →
      ((ps.foldl (sweepPixel H W C dd known) st).1).getD j 0 = st.1.getD j 0 := by
  intro ps
  induction ps with
  | nil => intro st j _; rfl
  | cons a t ih =>
    intro st j h
    rw [List.foldl_cons, ih _ _ (fun p hp => h p (List.mem_cons_of_mem a hp))]
    exact sweepPixel_getD_ne H W C dd known st a j (h a (List.mem_cons_self a t))

/-- After a full sweep, every channel of a known pixel holds the damaged value. -/
lemma sweep_known_getD (H W C : ℕ) (dd : List ℚ) (known : List ℕ) (U : List ℚ)
    (idx c : ℕ) (hidx : idx < H * W) (hc : c < C) (hk : known.get? idx = some 1)
    (hU : H * W * C ≤ U.length) :
    ((sweep H W C dd known U).1).getD (idx * C + c) 0 =
      dd.getD (idx * C + c) 0 := by
  have h1 : idx * C + c < (idx + 1) * C := by
    rw [Nat.succ_mul]
    exact Nat.add_lt_add_left hc _
  have hbound : idx * C + c < H * W * C := by
    have h2 : (idx + 1) * C ≤ H * W * C := Nat.mul_le_mul_right C hidx
    exact lt_of_lt_of_le h1 h2
  unfold sweep
  rw [range_split (idx + 1) (H * W) hidx, List.foldl_append]
  rw [sweepFold_getD_ne _ _ _ _ _ _ _ _ ?hsuf]
  case hsuf =>
    intro p hp c'' hc'' he
    obtain ⟨i, hi, rfl⟩ := List.mem_map.mp hp
    have h2 : (idx + 1) * C ≤ (idx + 1 + i) * C := Nat.mul_le_mul_right C (by omega)
    omega
  rw [List.range_succ, List.foldl_append, List.foldl_cons, List.foldl_nil]
  refine sweepPixel_known H W C dd known _ idx c hc hk ?_
  rw [sweepFold_length]
  exact lt_of_lt_of_le hbound hU

/-- Whenever at least one sweep runs, the final buffer of the loop is the
buffer produced by the last sweep, from some intermediate buffer of the
same length as the initial one. -/
lemma inpaintLoop_final_buffer (H W C : ℕ) (dd : List ℚ) (known : List ℕ)
    (tol : ℚ) :
    ∀ (fuel iter : ℕ) (U : List ℚ), 1 ≤ fuel →
      ∃ U', U'.length = U.length ∧
        (inpaintLoop H W C dd known tol fuel iter U).1 =
          (sweep H W C dd known U').1 := by
  intro fuel
  induction fuel with
  | zero => intro iter U h; omega
  | succ n ih =>
    intro iter U _
    simp only [inpaintLoop]
    split <;> split
    · exact ⟨U, rfl, rfl⟩
    · cases n with
      | zero => exact ⟨U, rfl, by simp only [inpaintLoop]⟩
      | succ m =>
        obtain ⟨U', hlen, heq⟩ := ih (iter + 1) ((sweep H W C dd known U).1)
          (by omega)
        refine ⟨U', ?_, heq⟩
        rw [hlen, sweep_length]
    · exact ⟨U, rfl, rfl⟩
    · cases n with
      | zero => exact ⟨U, rfl, by simp only [inpaintLoop]⟩
      | succ m =>
        obtain ⟨U', hlen, heq⟩ := ih (iter + 1) ((sweep H W C dd known U).1)
          (by omega)
        refine ⟨U', ?_, heq⟩
        rw [hlen, sweep_length]

/-- Known pixels hold the damaged values in the final buffer of the loop,
whenever at least one sweep runs. -/
lemma inpaintLoop_known_getD (H W C : ℕ) (dd : List ℚ) (known : List ℕ) (tol : ℚ)
    (idx c : ℕ) (hidx : idx < H * W) (hc : c < C) (hk : known.get? idx = some 1)
    (fuel iter : ℕ) (U : List ℚ) (hf : 1 ≤ fuel) (hU : H * W * C ≤ U.length) :
    ((inpaintLoop H W C dd known tol fuel iter U).1).getD (idx * C + c) 0 =
      dd.getD (idx * C + c) 0 := by
  obtain ⟨U', hlen, heq⟩ :=
    inpaintLoop_final_buffer H W C dd known tol fuel iter U hf
  rw [heq]
  refine sweep_known_getD H W C dd known U' idx c hidx hc hk ?_
  rw [hlen]
  exact hU

/-- A sweep over an all-known mask leaves the damaged buffer and the change
accumulators untouched. -/
lemma sweepFold_allknown (H W C : ℕ) (dd : List ℚ) (known : List ℕ)
    (tc : ℚ) (cc : ℕ) :
    ∀ (ps : List ℕ), (∀ i ∈ ps, known.get? i = some 1) →
      ps.foldl (sweepPixel H W C dd known) (dd, tc, cc) = (dd, tc, cc) := by
  intro ps
  induction ps with
  | nil => intro _; rfl
  | cons a t ih =>
    intro h
    rw [List.foldl_cons]
    have hstep : sweepPixel H W C dd known (dd, tc, cc) a = (dd, tc, cc) := by
      simp only [sweepPixel, h a (List.mem_cons_self a t), if_pos]
      rw [clampFold_id]
    rw [hstep]
    exact ih (fun i hi => h i (List.mem_cons_of_mem a hi))

lemma sweep_allknown (H W C : ℕ) (dd : List ℚ) (known : List ℕ)
    (h : ∀ i < H * W, known.get? i = some 1) :
    sweep H W C dd known dd = (dd, 0, 0) :=
  sweepFold_allknown H W C dd known 0 0 (List.range (H * W))
    (fun i hi => h i (List.mem_range.mp hi))

/-- Sweep-count characterization of the loop: it performs at most `fuel`
sweeps, and performs fewer than `fuel` exactly when some residual other
than the one of the last allowed sweep goes below tolerance. -/
lemma inpaintLoop_residual_spec (H W C : ℕ) (dd : List ℚ) (known : List ℕ)
    (tol : ℚ) :
    ∀ (fuel iter : ℕ) (U : List ℚ),
      (inpaintLoop H W C dd known tol fuel iter U).2.1.length ≤ fuel ∧
      ((inpaintLoop H W C dd known tol fuel iter U).2.1.length < fuel ↔
        ∃ k, k + 1 < fuel ∧
          k < (inpaintLoop H W C dd known tol fuel iter U).2.1.length ∧
          (inpaintLoop H W C dd known tol fuel iter U).2.1.getD k 0 < tol) := by
  intro fuel
  induction fuel with
  | zero =>
    intro iter U
    simp [inpaintLoop]
  | succ n ih =>
    intro iter U
    simp only [inpaintLoop]
    generalize (if 0 < (sweep H W C dd known U).2.2 then
      (sweep H W C dd known U).2.1 / ((sweep H W C dd known U).2.2 : ℚ)
      else 0) = avg
    split
    · refine ⟨by simp, ?_, ?_⟩
      · intro h1
        have h1' : 1 < n + 1 := by simpa using h1
        refine ⟨0, by omega, by simp, ?_⟩
        simpa using ‹avg < tol›
      · rintro ⟨k, hk1, hk2, _⟩
        have hk2' : k < 1 := by simpa using hk2
        have hn : (1 : ℕ) < n + 1 := by omega
        simpa using hn
    · obtain ⟨ihb, ihiff⟩ := ih (iter + 1) ((sweep H W C dd known U).1)
      set L := (inpaintLoop H W C dd known tol n (iter + 1)
        ((sweep H W C dd known U).1)).2.1 with hLdef
      refine ⟨?_, ?_, ?_⟩
      · have : (avg :: L).length = L.length + 1 := by simp
        simpa [this] using (by omega : L.length + 1 ≤ n + 1)
      · intro h1
        have h1' : L.length + 1 < n + 1 := by simpa using h1
        obtain ⟨k, hk1, hk2, hk3⟩ := ihiff.mp (by omega)
        refine ⟨k + 1, by omega, ?_, ?_⟩
        · simpa using (by omega : k + 1 < L.length + 1)
        · simpa using hk3
      · rintro ⟨k, hk1, hk2, hk3⟩
        have hk2' : k < L.length + 1 := by simpa using hk2
        cases k with
        | zero =>
          have havg : avg < tol := by simpa using hk3
          exact absurd havg ‹¬ avg < tol›
        | succ k' =>
          have hk3' : L.getD k' 0 < tol := by simpa using hk3
          have hlt := ihiff.mpr ⟨k', by omega, by omega, hk3'⟩
          simpa using (by omega : L.length + 1 < n + 1)

/-! Characterization of `rmseCore` as a finite sum. -/

lemma rmseChan_fold (o r : Tensor) (i : ℕ) (a : ℚ) :
    (List.range o.C).foldl (rmseChan o r i) a =
      a + ∑ c ∈ Finset.range o.C,
        (o.data.getD (i * o.C + c) 0 - r.data.getD (i * o.C + c) 0) *
        (o.data.getD (i * o.C + c) 0 - r.data.getD (i * o.C + c) 0) := by
  rw [show rmseChan o r i = (fun s c => s +
    ((o.data.getD (i * o.C + c) 0 - r.data.getD (i * o.C + c) 0) *
     (o.data.getD (i * o.C + c) 0 - r.data.getD (i * o.C + c) 0))) from rfl]
  exact foldl_add_sum _ _ _

lemma rmseFold_eq (o r : Tensor) (known : List ℕ) : ∀ (n : ℕ),
    (List.range n).foldl (rmseStep o r known) (0, 0) =
      (∑ i ∈ (Finset.range n).filter (fun i => known.get? i = some 0),
          ∑ c ∈ Finset.range o.C,
            (o.data.getD (i * o.C + c) 0 - r.data.getD (i * o.C + c) 0) *
            (o.data.getD (i * o.C + c) 0 - r.data.getD (i * o.C + c) 0),
        o.C * ((Finset.range n).filter (fun i => known.get? i = some 0)).card) := by
  intro n
  induction n with
  | zero => simp
  | succ m ih =>
    rw [List.range_succ, List.foldl_append, ih, List.foldl_cons, List.foldl_nil]
    by_cases hm : known.get? m = some 0
    · simp only [rmseStep, hm, if_pos]
      rw [rmseChan_fold]
      rw [Finset.range_succ, Finset.filter_insert, if_pos hm]
      have hnot : m ∉ (Finset.range m).filter (fun i => known.get? i = some 0) := by
        simp
      rw [Finset.sum_insert hnot, Finset.card_insert_of_not_mem hnot]
      simp only [Prod.mk.injEq]
      constructor
      · ring
      · ring
    · simp only [rmseStep, hm, if_neg, if_false]
      rw [Finset.range_succ, Finset.filter_insert, if_neg hm]

lemma rmseCore_eq (o r : Tensor) (known : List ℕ) :
    rmseCore o r known =
      (∑ i ∈ (Finset.range (o.H * o.W)).filter (fun i => known.get? i = some 0),
          ∑ c ∈ Finset.range o.C,
            (o.data.getD (i * o.C + c) 0 - r.data.getD (i * o.C + c) 0) *
            (o.data.getD (i * o.C + c) 0 - r.data.getD (i * o.C + c) 0),
        o.C * ((Finset.range (o.H * o.W)).filter
          (fun i => known.get? i = some 0)).card) := by
  unfold rmseCore
  exact rmseFold_eq o r known (o.H * o.W)

/-- Closed form of `rmseOnMissing`: square root of the sum of squared
channel differences over unknown pixels divided by the number of
(pixel, channel) terms, and `0` when that count is zero. -/
lemma rmse_formula (o r : Tensor) (known : List ℕ) :
    rmseOnMissing o r known =
      if 0 < o.C * ((Finset.range (o.H * o.W)).filter
          (fun i => known.get? i = some 0)).card then
        Real.sqrt
          (((∑ i ∈ (Finset.range (o.H * o.W)).filter
                (fun i => known.get? i = some 0),
              ∑ c ∈ Finset.range o.C,
                (o.data.getD (i * o.C + c) 0 - r.data.getD (i * o.C + c) 0) *
                (o.data.getD (i * o.C + c) 0 - r.data.getD (i * o.C + c) 0) : ℚ) : ℝ) /
            ((o.C * ((Finset.range (o.H * o.W)).filter
              (fun i => known.get? i = some 0)).card : ℕ) : ℝ))
      else 0 := by
  unfold rmseOnMissing
  rw [rmseCore_eq]

/-- Pointwise description of the damaged view buffer. -/
lemma makeDamagedView_getD (original : Tensor) (known : List ℕ) (j : ℕ) :
    (makeDamagedView original known).data.getD j 0 =
      if j / 3 < original.H * original.W ∧ known.get? (j / 3) = some 0 then 0
      else original.data.getD j 0 := by
  by_cases hj : j < original.data.length
  · unfold makeDamagedView
    rw [List.getD_eq_getElem?_getD, List.getElem?_map, List.getElem?_range hj]
    rfl
  · have hlen : (makeDamagedView original known).data.length =
        original.data.length := by
      unfold makeDamagedView
      rw [List.length_map, List.length_range]
    rw [List.getD_eq_default _ _ (by omega : original.data.length ≤ j) ,
      List.getD_eq_default]
    · split <;> rfl
    · omega

/-! Projections of `inpaintGaussSeidel`. -/

lemma inpaint_residuals (damaged : Tensor) (known : List ℕ) (lambda beta : ℚ)
    (maxIter : ℤ) (tol : ℚ) :
    (inpaintGaussSeidel damaged known lambda beta maxIter tol).residuals =
      (inpaintLoop damaged.H damaged.W damaged.C damaged.data known tol
        maxIter.toNat 0 damaged.data).2.1 := rfl

lemma inpaint_iterations (damaged : Tensor) (known : List ℕ) (lambda beta : ℚ)
    (maxIter : ℤ) (tol : ℚ) :
    (inpaintGaussSeidel damaged known lambda beta maxIter tol).iterations =
      (inpaintLoop damaged.H damaged.W damaged.C damaged.data known tol
        maxIter.toNat 0 damaged.data).2.2 + 1 := rfl

lemma inpaint_reconstructed (damaged : Tensor) (known : List ℕ)
    (lambda beta : ℚ) (maxIter : ℤ) (tol : ℚ) :
    (inpaintGaussSeidel damaged known lambda beta maxIter tol).reconstructed =
      ⟨damaged.H, damaged.W, damaged.C,
        (inpaintLoop damaged.H damaged.W damaged.C damaged.data known tol
          maxIter.toNat 0 damaged.data).1⟩ := rfl

lemma inpaint_rmse (damaged : Tensor) (known : List ℕ) (lambda beta : ℚ)
    (maxIter : ℤ) (tol : ℚ) :
    (inpaintGaussSeidel damaged known lambda beta maxIter tol).rmse =
      rmseOnMissing damaged
        (inpaintGaussSeidel damaged known lambda beta maxIter tol).reconstructed
        known := rfl

/-- With an all-known mask and positive tolerance, the loop breaks after
the first sweep leaving the damaged buffer untouched. -/
lemma inpaintLoop_allknown (H W C : ℕ) (dd : List ℚ) (known : List ℕ)
    (tol : ℚ) (m iter : ℕ)
    (hall : ∀ i < H * W, known.get? i = some 1) (htol : 0 < tol) :
    inpaintLoop H W C dd known tol (m + 1) iter dd = (dd, [0], iter) := by
  simp only [inpaintLoop]
  rw [sweep_allknown H W C dd known hall]
  simp [htol]

lemma makeDamagedView_H (o : Tensor) (k : List ℕ) :
    (makeDamagedView o k).H = o.H := rfl

lemma makeDamagedView_W (o : Tensor) (k : List ℕ) :
    (makeDamagedView o k).W = o.W := rfl

lemma makeDamagedView_C (o : Tensor) (k : List ℕ) :
    (makeDamagedView o k).C = o.C := rfl

lemma getD_mem_nat : ∀ (l : List ℕ) (i : ℕ), i < l.length → l.getD i 0 ∈ l := by
  intro l
  induction l with
  | nil => intro i h; simp at h
  | cons a t ih =>
    intro i h
    cases i with
    | zero => exact List.mem_cons_self a t
    | succ i' =>
      have h' : i' < t.length := by simpa using h
      have heq : (a :: t).getD (i' + 1) 0 = t.getD i' 0 := List.getD_cons_succ
      rw [heq]
      exact List.mem_cons_of_mem a (ih i' h')

/-! Claim theorems. -/

/-- Claim C3: in every sweep, each unknown pixel's channel value is
updated in place to `new = old + 1.25 * (mean - old)`, where `mean` is the
average of the working buffer at the four axis-aligned neighbors with
out-of-range coordinates clamped to the boundary; the sweep processes
pixels in row-major order and updates are immediately visible within the
same sweep because `sweepPixel` reads the current buffer `U` of the fold. -/
theorem unknown_pixel_update_formula (H W C : ℕ) (dd : List ℚ)
    (known : List ℕ) (U : List ℚ) (tc : ℚ) (cc : ℕ) (idx c : ℕ)
    (hc : c < C) (hl : idx * C + c < U.length)
    (hunk : ¬ known.get? idx = some 1) :
    omega = 5 / 4 ∧
    sweep H W C dd known U =
      (List.range (H * W)).foldl (sweepPixel H W C dd known) (U, 0, 0) ∧
    ((sweepPixel H W C dd known (U, tc, cc) idx).1).getD (idx * C + c) 0 =
      U.getD (idx * C + c) 0 +
        omega * ((((neighbors H W (idx / W) (idx % W)).map
            (fun p => U.getD ((p.1 * W + p.2) * C + c) 0)).sum / 4) -
          U.getD (idx * C + c) 0) :=
  ⟨rfl, rfl, sweepPixel_unknown H W C dd known (U, tc, cc) idx c hc hunk hl⟩

/-- Witness for C3 on the 1×2 single-channel buffer `[1, 0]` with pixel 1
unknown: its clamped neighbors are itself (three times) and pixel 0. -/
theorem unknown_pixel_update_formula_witness :
    0 < 1 ∧ 1 * 1 + 0 < ([1, 0] : List ℚ).length ∧
      ¬ ([1, 0] : List ℕ).get? 1 = some 1 ∧
      (omega = 5 / 4 ∧
        sweep 1 2 1 [1, 0] [1, 0] [1, 0] =
          (List.range (1 * 2)).foldl (sweepPixel 1 2 1 [1, 0] [1, 0])
            ([1, 0], 0, 0) ∧
        ((sweepPixel 1 2 1 [1, 0] [1, 0] ([1, 0], 0, 0) 1).1).getD (1 * 1 + 0) 0 =
          ([1, 0] : List ℚ).getD (1 * 1 + 0) 0 +
            omega * ((((neighbors 1 2 (1 / 2) (1 % 2)).map
                (fun p => ([1, 0] : List ℚ).getD ((p.1 * 2 + p.2) * 1 + 0) 0)).sum / 4) -
              ([1, 0] : List ℚ).getD (1 * 1 + 0) 0)) :=
  ⟨by decide, by decide, by decide,
    unknown_pixel_update_formula 1 2 1 [1, 0] [1, 0] [1, 0] 0 0 1 0
      (by decide) (by decide) (by decide)⟩

/-- Claim C4: after any sweep, every channel of every known pixel equals
the damaged value exactly, and consequently the reconstructed tensor of
`inpaintGaussSeidel` agrees with the damaged tensor on known pixels for
every positive iteration budget. -/
theorem known_pixels_preserved :
    (∀ (H W C : ℕ) (dd : List ℚ) (known : List ℕ) (U : List ℚ) (idx c : ℕ),
        idx < H * W → c < C → known.get? idx = some 1 →
        H * W * C ≤ U.length →
        ((sweep H W C dd known U).1).getD (idx * C + c) 0 =
          dd.getD (idx * C + c) 0) ∧
    (∀ (damaged : Tensor) (known : List ℕ) (lambda beta : ℚ) (maxIter : ℤ)
        (tol : ℚ) (idx c : ℕ),
        idx < damaged.H * damaged.W → c < damaged.C →
        known.get? idx = some 1 →
        damaged.H * damaged.W * damaged.C ≤ damaged.data.length →
        1 ≤ maxIter →
        ((inpaintGaussSeidel damaged known lambda beta maxIter
            tol).reconstructed.data).getD (idx * damaged.C + c) 0 =
          damaged.data.getD (idx * damaged.C + c) 0) := by
  constructor
  · intro H W C dd known U idx c hidx hc hk hU
    exact sweep_known_getD H W C dd known U idx c hidx hc hk hU
  · intro damaged known lambda beta maxIter tol idx c hidx hc hk hlen hmax
    rw [inpaint_reconstructed]
    exact inpaintLoop_known_getD damaged.H damaged.W damaged.C damaged.data
      known tol idx c hidx hc hk maxIter.toNat 0 damaged.data (by omega) hlen

/-- Witness for C4: in the 1×2 buffer `[1, 0]` with pixel 0 known, the
sweep leaves channel 0 of pixel 0 at the damaged value. -/
theorem known_pixels_preserved_witness :
    0 < 1 * 2 ∧ 0 < 1 ∧ ([1, 0] : List ℕ).get? 0 = some 1 ∧
      1 * 2 * 1 ≤ ([1, 0] : List ℚ).length ∧
      ((sweep 1 2 1 [1, 0] [1, 0] [1, 0]).1).getD (0 * 1 + 0) 0 =
        ([1, 0] : List ℚ).getD (0 * 1 + 0) 0 :=
  ⟨by decide, by decide, by decide, by decide,
    known_pixels_preserved.1 1 2 1 [1, 0] [1, 0] [1, 0] 0 0
      (by decide) (by decide) (by decide) (by decide)⟩

/-- Claim C5: the fidelity weight and the smoothness weight have no
numerical effect: two calls differing only in them return identical
results. -/
theorem lambda_beta_inert (damaged : Tensor) (known : List ℕ)
    (lambda1 beta1 lambda2 beta2 : ℚ) (maxIter : ℤ) (tol : ℚ) :
    inpaintGaussSeidel damaged known lambda1 beta1 maxIter tol =
      inpaintGaussSeidel damaged known lambda2 beta2 maxIter tol := rfl

/-- Claim C6 (amended): the loop always terminates, performs at most
`max maxIter 0` sweeps (one residual per sweep), and performs strictly
fewer than `maxIter` sweeps exactly when some sweep with 1-based index
strictly below `maxIter` has residual under the tolerance. -/
theorem sweep_count_bound_iff (damaged : Tensor) (known : List ℕ)
    (lambda beta : ℚ) (maxIter : ℤ) (tol : ℚ) :
    (inpaintGaussSeidel damaged known lambda beta maxIter
        tol).residuals.length ≤ maxIter.toNat ∧
    ((inpaintGaussSeidel damaged known lambda beta maxIter
        tol).residuals.length < maxIter.toNat ↔
      ∃ k, k + 1 < maxIter.toNat ∧
        k < (inpaintGaussSeidel damaged known lambda beta maxIter
          tol).residuals.length ∧
        (inpaintGaussSeidel damaged known lambda beta maxIter
          tol).residuals.getD k 0 < tol) := by
  rw [inpaint_residuals]
  exact inpaintLoop_residual_spec damaged.H damaged.W damaged.C damaged.data
    known tol maxIter.toNat 0 damaged.data

/-- Claim C6 counterexample: on a 1×1 all-known image with `maxIter = 1`
and `tol = 1`, the single sweep's residual `0` is below the tolerance,
yet the number of performed sweeps (1) is not smaller than `maxIter`:
the unrestricted "fewer sweeps iff some residual below tol" fails. -/
theorem early_stop_iff_cex :
    ¬ ((inpaintGaussSeidel ⟨1, 1, 1, [0]⟩ [1] 0 0 1 1).residuals.length <
          (1 : ℤ).toNat ↔
        ∃ k, k < (inpaintGaussSeidel ⟨1, 1, 1, [0]⟩ [1] 0 0 1
            1).residuals.length ∧
          (inpaintGaussSeidel ⟨1, 1, 1, [0]⟩ [1] 0 0 1 1).residuals.getD k 0 <
            1) := by
  have hres : (inpaintGaussSeidel ⟨1, 1, 1, [0]⟩ [1] 0 0 1 1).residuals =
      [0] := by
    rw [inpaint_residuals]
    show (inpaintLoop 1 1 1 [0] [1] 1 (0 + 1) 0 [0]).2.1 = [0]
    rw [inpaintLoop_allknown 1 1 1 [0] [1] 1 0 0 ?hall ?htol]
    case hall =>
      intro i hi
      have h0 : i = 0 := Nat.lt_one_iff.mp hi
      subst h0
      rfl
    case htol => norm_num
  intro h
  have h2 := h.mpr ⟨0, by rw [hres]; norm_num, by rw [hres]; norm_num⟩
  rw [hres] at h2
  norm_num at h2

/-- Claim C8: with an all-known mask, positive tolerance and a positive
iteration budget, the result is residual sequence `[0]`, iteration count
`1`, and a reconstructed tensor identical to the damaged tensor. -/
theorem all_known_shortcut (damaged : Tensor) (known : List ℕ)
    (lambda beta : ℚ) (maxIter : ℤ) (tol : ℚ)
    (hall : ∀ i < damaged.H * damaged.W, known.get? i = some 1)
    (htol : 0 < tol) (hmax : 1 ≤ maxIter) :
    (inpaintGaussSeidel damaged known lambda beta maxIter tol).residuals =
        [0] ∧
    (inpaintGaussSeidel damaged known lambda beta maxIter tol).iterations =
        1 ∧
    (inpaintGaussSeidel damaged known lambda beta maxIter tol).reconstructed =
        damaged := by
  obtain ⟨m, hm⟩ : ∃ m, maxIter.toNat = m + 1 := ⟨maxIter.toNat - 1, by omega⟩
  have hloop : inpaintLoop damaged.H damaged.W damaged.C damaged.data known
      tol maxIter.toNat 0 damaged.data = (damaged.data, [0], 0) := by
    rw [hm]
    exact inpaintLoop_allknown _ _ _ _ _ _ m 0 hall htol
  refine ⟨?_, ?_, ?_⟩
  · rw [inpaint_residuals, hloop]
  · rw [inpaint_iterations, hloop]
  · rw [inpaint_reconstructed, hloop]

/-- Witness for C8 on a 1×1 single-channel image with value `1/2`. -/
theorem all_known_shortcut_witness :
    (∀ i < (⟨1, 1, 1, [1/2]⟩ : Tensor).H * (⟨1, 1, 1, [1/2]⟩ : Tensor).W,
        ([1] : List ℕ).get? i = some 1) ∧ (0 : ℚ) < 1 ∧ (1 : ℤ) ≤ 1 ∧
      ((inpaintGaussSeidel ⟨1, 1, 1, [1/2]⟩ [1] 0 0 1 1).residuals = [0] ∧
        (inpaintGaussSeidel ⟨1, 1, 1, [1/2]⟩ [1] 0 0 1 1).iterations = 1 ∧
        (inpaintGaussSeidel ⟨1, 1, 1, [1/2]⟩ [1] 0 0 1 1).reconstructed =
          ⟨1, 1, 1, [1/2]⟩) :=
  ⟨fun i hi => by
      have h0 : i = 0 := Nat.lt_one_iff.mp hi
      subst h0
      rfl,
    by norm_num, by norm_num,
    all_known_shortcut ⟨1, 1, 1, [1/2]⟩ [1] 0 0 1 1
      (fun i hi => by
        have h0 : i = 0 := Nat.lt_one_iff.mp hi
        subst h0
        rfl)
      (by norm_num) (by norm_num)⟩

/-- Claim C9: `rmseOnMissing` accumulates the squared per-channel
differences over all channels of every pixel with `known[i] === 0`,
divides by the number of such (pixel, channel) terms, and returns the
square root; when that count is zero (no unknown pixel) it returns `0`. -/
theorem rmse_on_missing_spec (o r : Tensor) (known : List ℕ) :
    rmseOnMissing o r known =
      if 0 < o.C * ((Finset.range (o.H * o.W)).filter
          (fun i => known.get? i = some 0)).card then
        Real.sqrt
          (((∑ i ∈ (Finset.range (o.H * o.W)).filter
                (fun i => known.get? i = some 0),
              ∑ c ∈ Finset.range o.C,
                (o.data.getD (i * o.C + c) 0 - r.data.getD (i * o.C + c) 0) *
                (o.data.getD (i * o.C + c) 0 -
                  r.data.getD (i * o.C + c) 0) : ℚ) : ℝ) /
            ((o.C * ((Finset.range (o.H * o.W)).filter
              (fun i => known.get? i = some 0)).card : ℕ) : ℝ))
      else 0 :=
  rmse_formula o r known

/-- Claim C10: the RMSE packaged by the solver is computed against the
damaged view, which is zero on every channel of every unknown pixel, so
it equals the root of the mean of the squared reconstructed samples over
the originally-unknown (pixel, channel) pairs, and `0` when no pixel is
unknown. -/
theorem rmse_zero_baseline (source : Tensor) (known : List ℕ)
    (lambda beta : ℚ) (maxIter : ℤ) (tol : ℚ) (hC : source.C = 3) :
    (inpaintGaussSeidel (makeDamagedView source known) known lambda beta
        maxIter tol).rmse =
      if 0 < ((Finset.range (source.H * source.W)).filter
          (fun i => known.get? i = some 0)).card then
        Real.sqrt
          (((∑ i ∈ (Finset.range (source.H * source.W)).filter
                (fun i => known.get? i = some 0),
              ∑ c ∈ Finset.range 3,
                ((inpaintGaussSeidel (makeDamagedView source known) known
                    lambda beta maxIter tol).reconstructed.data.getD
                  (i * 3 + c) 0) ^ 2 : ℚ) : ℝ) /
            ((3 * ((Finset.range (source.H * source.W)).filter
              (fun i => known.get? i = some 0)).card : ℕ) : ℝ))
      else 0 := by
  rw [inpaint_rmse, rmse_formula, makeDamagedView_H, makeDamagedView_W,
    makeDamagedView_C, hC]
  have hsum : ∀ r : Tensor,
      (∑ i ∈ (Finset.range (source.H * source.W)).filter
          (fun i => known.get? i = some 0),
        ∑ c ∈ Finset.range 3,
          ((makeDamagedView source known).data.getD (i * 3 + c) 0 -
            r.data.getD (i * 3 + c) 0) *
          ((makeDamagedView source known).data.getD (i * 3 + c) 0 -
            r.data.getD (i * 3 + c) 0)) =
      ∑ i ∈ (Finset.range (source.H * source.W)).filter
          (fun i => known.get? i = some 0),
        ∑ c ∈ Finset.range 3, (r.data.getD (i * 3 + c) 0) ^ 2 := by
    intro r
    refine Finset.sum_congr rfl ?_
    intro i hi
    obtain ⟨hir, hiu⟩ := Finset.mem_filter.mp hi
    have hir' : i < source.H * source.W := Finset.mem_range.mp hir
    refine Finset.sum_congr rfl ?_
    intro c hcr
    have hc3 : c < 3 := Finset.mem_range.mp hcr
    have hdiv : (i * 3 + c) / 3 = i := by omega
    rw [makeDamagedView_getD, hdiv, if_pos ⟨hir', hiu⟩]
    ring
  rw [hsum]
  by_cases hcard : 0 < ((Finset.range (source.H * source.W)).filter
      (fun i => known.get? i = some 0)).card
  · rw [if_pos (by omega), if_pos hcard]
  · rw [if_neg (by omega), if_neg hcard]

/-- Witness for C10 on a 1×1 source `[1, 1, 1]` whose single pixel is
unknown. -/
theorem rmse_zero_baseline_witness :
    (⟨1, 1, 3, [1, 1, 1]⟩ : Tensor).C = 3 ∧
    (inpaintGaussSeidel (makeDamagedView ⟨1, 1, 3, [1, 1, 1]⟩ [0]) [0] 0 0 1
        1).rmse =
      if 0 < ((Finset.range 1).filter
          (fun i => ([0] : List ℕ).get? i = some 0)).card then
        Real.sqrt
          (((∑ i ∈ (Finset.range 1).filter
                (fun i => ([0] : List ℕ).get? i = some 0),
              ∑ c ∈ Finset.range 3,
                ((inpaintGaussSeidel (makeDamagedView ⟨1, 1, 3, [1, 1, 1]⟩
                    [0]) [0] 0 0 1 1).reconstructed.data.getD
                  (i * 3 + c) 0) ^ 2 : ℚ) : ℝ) /
            ((3 * ((Finset.range 1).filter
              (fun i => ([0] : List ℕ).get? i = some 0)).card : ℕ) : ℝ))
      else 0 :=
  ⟨rfl, rmse_zero_baseline ⟨1, 1, 3, [1, 1, 1]⟩ [0] 0 0 1 1 rfl⟩

/-- Claim C1 (amended): the RMSE field of the result equals
`rmseOnMissing` applied with the damaged tensor passed to the solver as
the baseline — not a ground-truth source tensor, which the solver never
receives. -/
theorem rmse_damaged_baseline (damaged : Tensor) (known : List ℕ)
    (lambda beta : ℚ) (maxIter : ℤ) (tol : ℚ) :
    (inpaintGaussSeidel damaged known lambda beta maxIter tol).rmse =
      rmseOnMissing damaged
        (inpaintGaussSeidel damaged known lambda beta maxIter
          tol).reconstructed known := rfl

/-- Claim C1 counterexample: a 1×1 source `[1, 1, 1]` with its only pixel
unknown is damaged to `[0, 0, 0]` and reconstructed as `[0, 0, 0]`; the
packaged RMSE is `0` (baseline: damaged view), while the RMSE against
the source tensor is `1`. -/
theorem rmse_source_baseline_cex :
    (inpaintGaussSeidel (makeDamagedView ⟨1, 1, 3, [1, 1, 1]⟩ [0]) [0] 0 0 1
        1).rmse ≠
      rmseOnMissing ⟨1, 1, 3, [1, 1, 1]⟩
        (inpaintGaussSeidel (makeDamagedView ⟨1, 1, 3, [1, 1, 1]⟩ [0]) [0]
          0 0 1 1).reconstructed [0] := by
  have hdmg : makeDamagedView ⟨1, 1, 3, ([1, 1, 1] : List ℚ)⟩
      ([0] : List ℕ) = ⟨1, 1, 3, [0, 0, 0]⟩ := rfl
  have hloop : inpaintLoop 1 1 3 [0, 0, 0] [0] 1 1 0 [0, 0, 0] =
      ([0, 0, 0], [0], 0) := by
    norm_num [inpaintLoop, sweep, sweepPixel, chanStep, clampStep, neighbors,
      omega, show List.range 1 = [0] from rfl,
      show List.range 3 = [0, 1, 2] from rfl,
      List.foldl_cons, List.foldl_nil, List.get?, List.getD, List.set]
  have hrecon : (inpaintGaussSeidel (makeDamagedView ⟨1, 1, 3, [1, 1, 1]⟩
      [0]) [0] 0 0 1 1).reconstructed = ⟨1, 1, 3, [0, 0, 0]⟩ := by
    rw [inpaint_reconstructed, hdmg]
    show (⟨1, 1, 3, (inpaintLoop 1 1 3 [0, 0, 0] [0] 1 1 0
      [0, 0, 0]).1⟩ : Tensor) = ⟨1, 1, 3, [0, 0, 0]⟩
    rw [hloop]
  have hcoreA : rmseCore ⟨1, 1, 3, [0, 0, 0]⟩ ⟨1, 1, 3, [0, 0, 0]⟩ [0] =
      (0, 3) := by
    norm_num [rmseCore, rmseStep, rmseChan,
      show List.range 1 = [0] from rfl,
      show List.range 3 = [0, 1, 2] from rfl,
      List.foldl_cons, List.foldl_nil, List.get?, List.getD]
  have hcoreB : rmseCore ⟨1, 1, 3, [1, 1, 1]⟩ ⟨1, 1, 3, [0, 0, 0]⟩ [0] =
      (3, 3) := by
    norm_num [rmseCore, rmseStep, rmseChan,
      show List.range 1 = [0] from rfl,
      show List.range 3 = [0, 1, 2] from rfl,
      List.foldl_cons, List.foldl_nil, List.get?, List.getD]
  have hA : (inpaintGaussSeidel (makeDamagedView ⟨1, 1, 3, [1, 1, 1]⟩ [0])
      [0] 0 0 1 1).rmse = 0 := by
    rw [inpaint_rmse, hrecon, hdmg]
    unfold rmseOnMissing
    rw [hcoreA]
    norm_num
  have hB : rmseOnMissing ⟨1, 1, 3, [1, 1, 1]⟩
      (inpaintGaussSeidel (makeDamagedView ⟨1, 1, 3, [1, 1, 1]⟩ [0]) [0]
        0 0 1 1).reconstructed [0] = 1 := by
    rw [hrecon]
    unfold rmseOnMissing
    rw [hcoreB]
    norm_num
  rw [hA, hB]
  exact zero_ne_one

/-- Claim C2 failing input (code bug): on the 1×2 image `[1, 0]` with
pixel 0 known, `maxIter = 1` and `tol = 1/1000`, the loop performs
exactly one sweep (one residual, `5/16`, not below tolerance) but the
reported iteration count is `iter + 1 = 2`, exceeding `maxIter`. -/
theorem iterations_overcount_bug :
    (inpaintGaussSeidel ⟨1, 2, 1, [1, 0]⟩ [1, 0] 0 0 1 (1/1000)).iterations =
        2 ∧
    (inpaintGaussSeidel ⟨1, 2, 1, [1, 0]⟩ [1, 0] 0 0 1 (1/1000)).residuals =
        [5/16] := by
  have hloop : inpaintLoop 1 2 1 [1, 0] [1, 0] (1/1000) 1 0 [1, 0] =
      ([1, 5/16], [5/16], 1) := by
    norm_num [inpaintLoop, sweep, sweepPixel, chanStep, clampStep, neighbors,
      omega, show List.range 2 = [0, 1] from rfl,
      show List.range 1 = [0] from rfl,
      List.foldl_cons, List.foldl_nil, List.get?, List.getD, List.set,
      show |(5:ℚ)/16| = 5/16 from by norm_num]
  constructor
  · rw [inpaint_iterations]
    show (inpaintLoop 1 2 1 [1, 0] [1, 0] (1/1000) 1 0 [1, 0]).2.2 + 1 = 2
    rw [hloop]
  · rw [inpaint_residuals]
    show (inpaintLoop 1 2 1 [1, 0] [1, 0] (1/1000) 1 0 [1, 0]).2.1 = [5/16]
    rw [hloop]

/-- Claim C7: manual mask construction fails with the empty-mask error
when nothing is painted (and the pipeline produces no damaged view), and
otherwise returns the pixelwise complement `known[i] = 1 - paint[i]`. -/
theorem mask_complement_law (source : Tensor) (paint : List ℕ)
    (hbin : ∀ v ∈ paint, v ≤ 1) :
    (paint.sum ≠ 0 →
      ∃ known, buildKnownMaskFromPaint paint = Except.ok known ∧
        known.length = paint.length ∧
        ∀ i < paint.length, known.getD i 0 = 1 - paint.getD i 0) ∧
    (paint.sum = 0 →
      buildKnownMaskFromPaint paint = Except.error MaskError.emptyMask ∧
      applyDamageManual source paint = none) := by
  constructor
  · intro hne
    refine ⟨paint.map fun v => if v = 1 then 0 else 1, ?_, by simp, ?_⟩
    · unfold buildKnownMaskFromPaint
      rw [if_neg hne]
    · intro i hi
      rw [getD_map_lt _ paint i hi]
      have hv : paint.getD i 0 ≤ 1 := hbin _ (getD_mem_nat paint i hi)
      have hcase : paint.getD i 0 = 0 ∨ paint.getD i 0 = 1 := by omega
      rcases hcase with h0 | h1
      · rw [h0, if_neg (by norm_num)]
      · rw [h1, if_pos rfl]
  · intro h0
    have hb : buildKnownMaskFromPaint paint =
        Except.error MaskError.emptyMask := by
      unfold buildKnownMaskFromPaint
      rw [if_pos h0]
    exact ⟨hb, by simp [applyDamageManual, hb]⟩

/-- Witness for C7 on the paint mask `[1, 0]`. -/
theorem mask_complement_law_witness :
    (∀ v ∈ ([1, 0] : List ℕ), v ≤ 1) ∧
    (([1, 0] : List ℕ).sum ≠ 0 →
      ∃ known, buildKnownMaskFromPaint [1, 0] = Except.ok known ∧
        known.length = ([1, 0] : List ℕ).length ∧
        ∀ i < ([1, 0] : List ℕ).length,
          known.getD i 0 = 1 - ([1, 0] : List ℕ).getD i 0) ∧
    (([1, 0] : List ℕ).sum = 0 →
      buildKnownMaskFromPaint [1, 0] = Except.error MaskError.emptyMask ∧
      applyDamageManual ⟨0, 0, 3, []⟩ [1, 0] = none) :=
  ⟨by decide,
    (mask_complement_law ⟨0, 0, 3, []⟩ [1, 0] (by decide)).1,
    (mask_complement_law ⟨0, 0, 3, []⟩ [1, 0] (by decide)).2⟩

end Inpaint
